import Mathlib

/-!
Verification of the waveform-to-range pipeline in `eaarl/analyze.py`.

The embedding models a pandas DataFrame of pulse records as a `List Record`;
waveform samples (numpy float arrays) are modelled as `List ℚ` with exact
rational arithmetic.  The `limit` argument of `centroid` is modelled as
`Option Nat` (the spec describes it as a count of leading samples); Python's
`if limit:` truthiness test means both `None` and `0` perform no truncation,
which `pyTruncate` reproduces.

`select_eaarla_channel` returns `Except String (List Record)`: `.error`
models a raised exception.  For a frame whose length (after dropping
channel 4) is not a multiple of 3 but which still passes the positional
channel spot check, the numpy strided assignments `keep[1::3] = ...` /
`keep[2::3] = ...` raise a broadcasting ValueError unless the frame has at
most 2 rows (slices of length 0 or 1 broadcast); the embedding reproduces
that with a distinct error string.
-/

namespace EaarlPy

/-- Record models one row of the pulse-record DataFrame used by analyze.py. -/
structure Record where
  raster_number : Int
  pulse_number : Int
  channel : Int
  rx : List ℚ
  tx : List ℚ
  thresh_rx : Int
  thresh_tx : Int
  range : ℚ
deriving DecidableEq, Repr, Inhabited

/-- Translation of `remove_failed_thresh(frame, rx, tx)`: keep records with
`thresh_rx == 0` when `rx` is set, then records with `thresh_tx == 0` when
`tx` is set. -/
def remove_failed_thresh (frame : List Record) (rx : Bool) (tx : Bool) : List Record :=
  let frame := if rx then frame.filter (fun r => r.thresh_rx == 0) else frame
  let frame := if tx then frame.filter (fun r => r.thresh_tx == 0) else frame
  frame

/-- Translation of the saturation test inside `select_eaarla_channel`:
`(rx[:max_samples] >= saturation_value).sum() >= max_saturated`. -/
def check_saturation (max_samples : Nat) (saturation_value : ℚ) (max_saturated : Nat)
    (rx : List ℚ) : Bool :=
  decide (max_saturated ≤ (rx.take max_samples).countP (fun v => decide (saturation_value ≤ v)))

/-- Translation of the three positional spot checks
`np.all(frame.channel[0::3] == 1)`, `[1::3] == 2`, `[2::3] == 3`, combined:
walking the list in strides of three, position `3k` must hold channel 1,
`3k+1` channel 2, `3k+2` channel 3 (an empty slice check is vacuously true). -/
def channels_ok : List Record → Bool
  | [] => true
  | [a] => a.channel == 1
  | [a, b] => a.channel == 1 && b.channel == 2
  | a :: b :: c :: rest =>
      a.channel == 1 && b.channel == 2 && c.channel == 3 && channels_ok rest

/-- Translation of
`np.all(frame.raster_number.values[1:] >= frame.raster_number.values[:-1])`:
adjacent raster numbers are non-decreasing. -/
def rasters_ok : List Record → Bool
  | [] => true
  | [_] => true
  | a :: b :: rest => decide (a.raster_number ≤ b.raster_number) && rasters_ok (b :: rest)

/-- Translation of the strided keep-mask computation
`keep = ¬saturated; keep[1::3] = ¬keep[0::3] ∧ keep[1::3];
keep[2::3] = ¬keep[0::3] ∧ ¬keep[1::3]` followed by `frame[keep]`.
Element `3k` is kept iff its waveform is not saturated; element `3k+1` iff
element `3k` is saturated and `3k+1` is not; element `3k+2` iff both `3k`
and `3k+1` are saturated (the second assignment reads the already-updated
`keep[1::3]`).  The one- and two-element leftover cases mirror the same
per-position formulas, which is what the numpy broadcasts compute there. -/
def triplet_keep (sat : Record → Bool) : List Record → List Record
  | [] => []
  | [a] => if sat a then [] else [a]
  | [a, b] =>
      (if sat a then [] else [a]) ++ (if sat a && !(sat b) then [b] else [])
  | a :: b :: c :: rest =>
      (if sat a then [] else [a]) ++ (if sat a && !(sat b) then [b] else []) ++
      (if sat a && sat b then [c] else []) ++ triplet_keep sat rest

/-- Translation of `select_eaarla_channel(frame, max_saturated, max_samples,
saturation_value)` (Python defaults: 5, 12, 250).  Channel-4 rows are dropped,
the positional spot checks may raise `ValueError('frame is not sorted
properly')`, and then the strided keep mask is applied.  When the filtered
length is neither a multiple of 3 nor at most 2, the strided assignments
fail to broadcast in numpy; that raise is modelled by the second error. -/
def select_eaarla_channel (frame : List Record) (max_saturated : Nat) (max_samples : Nat)
    (saturation_value : ℚ) : Except String (List Record) :=
  let f := frame.filter (fun r => r.channel != 4)
  if channels_ok f = false then Except.error "frame is not sorted properly"
  else if rasters_ok f = false then Except.error "frame is not sorted properly"
  else if f.length % 3 = 0 ∨ f.length ≤ 2 then
    Except.ok (triplet_keep
      (fun r => check_saturation max_samples saturation_value max_saturated r.rx) f)
  else Except.error "could not broadcast input array"

/-- Translation of `if limit: wf = wf[:limit]`: `None` and `0` are falsy in
Python, so only a nonzero limit truncates. -/
def pyTruncate (wf : List ℚ) (limit : Option Nat) : List ℚ :=
  match limit with
  | none => wf
  | some 0 => wf
  | some l => wf.take l

/-- Translation of `np.arange(1, n + 1)` as a rational list. -/
def arange1 (n : Nat) : List ℚ :=
  (List.range n).map (fun i : ℕ => (i : ℚ) + 1)

/-- Translation of `centroid(wf, limit)`: empty waveform gives -1; after
truthy-limit truncation the first sample is subtracted from every sample;
a zero energy sum gives -1; otherwise the 1-based weighted mean minus 1. -/
def centroid (wf : List ℚ) (limit : Option Nat) : ℚ :=
  if wf.length = 0 then -1
  else
    let t := pyTruncate wf limit
    let b := t.map (fun v => v - t.headI)
    let sum_power := b.sum
    if sum_power = 0 then -1
    else
      let weighted_idx := b.zipWith (fun v w => v * w) (arange1 b.length)
      weighted_idx.sum / sum_power - 1

/-- Translation of `add_mirror(frame, ops)`, per record: `tx_pos` is the
transmit-waveform centroid with no limit, and the record plus `tx_pos` and
the ops data are handed to the external `eaarl.project.project_mirror`
(modelled as an arbitrary function `project_mirror`). -/
def add_mirror {O M : Type} (project_mirror : Record → ℚ → O → M) (ops : O)
    (r : Record) : ℚ × M :=
  let tx_pos := centroid r.tx none
  (tx_pos, project_mirror r tx_pos ops)

/-- Translation of `add_fs(frame, ops, prefix, limit)`, per record: the
receive-waveform centroid with the given limit gives the position, the
external `eaarl.project.target_range` is applied to (base range, tx_pos,
position, channel, ops), and the record, ops, resulting range and prefix go
to the external `eaarl.project.project_point`. -/
def add_fs {O P : Type} (target_range : ℚ → ℚ → ℚ → Int → O → ℚ)
    (project_point : Record → O → ℚ → String → P) (ops : O) (pfx : String)
    (limit : Option Nat) (r : Record) (tx_pos : ℚ) : ℚ × ℚ × P :=
  let pos := centroid r.rx limit
  let rng := target_range r.range tx_pos pos r.channel ops
  (pos, rng, project_point r ops rng pfx)

/-- Default of the `limit` parameter in the `add_fs` signature. -/
def fs_default_limit : Option Nat := some 12

/-- Default of the `prefix` parameter in the `add_fs` signature. -/
def fs_default_pfx : String := "fs"

/-- Spec-side view of a frame as explicit (channel 1, channel 2, channel 3)
triplets, flattened back to the row order the selector receives. -/
def flat3 : List (Record × Record × Record) → List Record
  | [] => []
  | (a, b, c) :: ts => a :: b :: c :: flat3 ts

/-- Spec-side selection policy for one triplet: channel 1 if not saturated,
else channel 2 if not saturated, else channel 3 unconditionally. -/
def select_policy (sat : Record → Bool) (t : Record × Record × Record) : Record :=
  if sat t.1 = false then t.1
  else if sat t.2.1 = false then t.2.1
  else t.2.2

/-- Concrete saturated channel-1 record used for witness instantiations:
five of the first twelve receive samples reach the saturation value 250. -/
def wrA : Record := ⟨1, 1, 1, [250, 250, 250, 250, 250, 0, 0, 0, 0, 0, 0, 0], [0, 5, 0], 0, 0, 10⟩

/-- Concrete non-saturated channel-2 record used for witness instantiations. -/
def wrB : Record := ⟨1, 1, 2, [0, 10, 0], [0, 5, 0], 0, 0, 10⟩

/-- Concrete non-saturated channel-3 record used for witness instantiations. -/
def wrC : Record := ⟨1, 1, 3, [0, 1, 0], [0, 5, 0], 0, 0, 10⟩

/-- Concrete frame whose per-triplet channel order is [1, 3, 2]. -/
def frame132 : List Record := [wrA, wrC, wrB]

/-- Concrete frame with channel order (1, 2, 3) but a decreasing raster number. -/
def frameRasterBad : List Record :=
  [{ wrA with raster_number := 2 }, { wrB with raster_number := 1 },
   { wrC with raster_number := 1 }]

/-- Concrete waveform with exactly five samples at or above 250 in its head. -/
def wSat5 : List ℚ := [250, 251, 300, 250, 255, 0, 0, 0, 0, 0, 0, 0]

/-- Concrete waveform with exactly four samples at or above 250 in its head. -/
def wSat4 : List ℚ := [250, 251, 300, 250, 0, 0, 0, 0, 0, 0, 0, 0]

lemma map_sum_getD {α M : Type} [AddCommMonoid M] (l : List α) (d : α) (f : α → M) :
    (l.map f).sum = ∑ i ∈ Finset.range l.length, f (l.getD i d) := by
  induction l with
  | nil => simp
  | cons a l ih =>
      rw [List.map_cons, List.sum_cons, ih, List.length_cons, Finset.sum_range_succ']
      simp [add_comm]

lemma zipWith_mul_range_sum {α : Type} (l : List α) (d : α) (f : α → ℚ) (g : ℕ → ℚ) :
    ((l.map f).zipWith (fun v w => v * w) ((List.range l.length).map g)).sum
      = ∑ i ∈ Finset.range l.length, f (l.getD i d) * g i := by
  induction l generalizing g with
  | nil => simp
  | cons a l ih =>
      rw [List.length_cons, List.range_succ_eq_map, List.map_cons, List.map_cons,
        List.map_map, List.zipWith_cons_cons, List.sum_cons, Finset.sum_range_succ']
      have : (g ∘ Nat.succ) = fun i => g (i + 1) := rfl
      rw [this, ih (fun i => g (i + 1))]
      simp [add_comm]

lemma headI_eq_getD (l : List ℚ) (h : l ≠ []) : l.headI = l.getD 0 0 := by
  cases l with
  | nil => exact absurd rfl h
  | cons a l => rfl

lemma pyTruncate_ne_nil {wf : List ℚ} (h : wf ≠ []) (limit : Option Nat) :
    pyTruncate wf limit ≠ [] := by
  match limit with
  | none => exact h
  | some 0 => exact h
  | some (l + 1) =>
      cases wf with
      | nil => exact absurd rfl h
      | cons a t => simp [pyTruncate]

lemma pyTruncate_length_le (wf : List ℚ) (limit : Option Nat) :
    (pyTruncate wf limit).length ≤ wf.length := by
  match limit with
  | none => exact le_refl _
  | some 0 => exact le_refl _
  | some (l + 1) => simp [pyTruncate]

lemma pyTruncate_map (f : ℚ → ℚ) (wf : List ℚ) (limit : Option Nat) :
    pyTruncate (wf.map f) limit = (pyTruncate wf limit).map f := by
  match limit with
  | none => rfl
  | some 0 => rfl
  | some (l + 1) => simp [pyTruncate, List.map_take]

lemma centroid_eq (wf : List ℚ) (limit : Option Nat) :
    centroid wf limit =
      if wf = [] then -1
      else if (∑ i ∈ Finset.range (pyTruncate wf limit).length,
          ((pyTruncate wf limit).getD i 0 - (pyTruncate wf limit).getD 0 0)) = 0 then -1
      else (∑ i ∈ Finset.range (pyTruncate wf limit).length,
            ((pyTruncate wf limit).getD i 0 - (pyTruncate wf limit).getD 0 0) * ((i : ℚ) + 1)) /
          (∑ i ∈ Finset.range (pyTruncate wf limit).length,
            ((pyTruncate wf limit).getD i 0 - (pyTruncate wf limit).getD 0 0)) - 1 := by
  by_cases hwf : wf = []
  · subst hwf; simp [centroid, pyTruncate]
  · have hlen : ¬ wf.length = 0 := by simpa [List.length_eq_zero] using hwf
    have ht : pyTruncate wf limit ≠ [] := pyTruncate_ne_nil hwf limit
    have hhead : (pyTruncate wf limit).headI = (pyTruncate wf limit).getD 0 0 :=
      headI_eq_getD _ ht
    have hsum : ((pyTruncate wf limit).map (fun v => v - (pyTruncate wf limit).headI)).sum
        = ∑ i ∈ Finset.range (pyTruncate wf limit).length,
            ((pyTruncate wf limit).getD i 0 - (pyTruncate wf limit).getD 0 0) := by
      rw [map_sum_getD (pyTruncate wf limit) 0 (fun v => v - (pyTruncate wf limit).headI), hhead]
    have hw : (((pyTruncate wf limit).map (fun v => v - (pyTruncate wf limit).headI)).zipWith
          (fun v w => v * w)
          (arange1 ((pyTruncate wf limit).map
            (fun v => v - (pyTruncate wf limit).headI)).length)).sum
        = ∑ i ∈ Finset.range (pyTruncate wf limit).length,
            ((pyTruncate wf limit).getD i 0 - (pyTruncate wf limit).getD 0 0) * ((i : ℚ) + 1) := by
      rw [List.length_map, arange1,
        zipWith_mul_range_sum (pyTruncate wf limit) 0
          (fun v => v - (pyTruncate wf limit).headI) (fun i => (i : ℚ) + 1), hhead]
    simp only [centroid, hlen, if_false, hwf, hsum, hw]

lemma flat3_length (ts : List (Record × Record × Record)) :
    (flat3 ts).length = 3 * ts.length := by
  induction ts with
  | nil => rfl
  | cons t ts ih =>
      obtain ⟨a, b, c⟩ := t
      simp [flat3, ih]
      ring

lemma flat3_filter_ne4 (ts : List (Record × Record × Record))
    (hch : ∀ t ∈ ts, t.1.channel = 1 ∧ t.2.1.channel = 2 ∧ t.2.2.channel = 3) :
    (flat3 ts).filter (fun r => r.channel != 4) = flat3 ts := by
  induction ts with
  | nil => rfl
  | cons t ts ih =>
      obtain ⟨a, b, c⟩ := t
      obtain ⟨h1, h2, h3⟩ := hch (a, b, c) (List.mem_cons_self _ _)
      have hrest := ih (fun u hu => hch u (List.mem_cons_of_mem _ hu))
      simp only [flat3, List.filter_cons] at *
      simp [h1, h2, h3, hrest]

lemma flat3_channels_ok (ts : List (Record × Record × Record))
    (hch : ∀ t ∈ ts, t.1.channel = 1 ∧ t.2.1.channel = 2 ∧ t.2.2.channel = 3) :
    channels_ok (flat3 ts) = true := by
  induction ts with
  | nil => rfl
  | cons t ts ih =>
      obtain ⟨a, b, c⟩ := t
      obtain ⟨h1, h2, h3⟩ := hch (a, b, c) (List.mem_cons_self _ _)
      have hrest := ih (fun u hu => hch u (List.mem_cons_of_mem _ hu))
      simp [flat3, channels_ok, hrest]
      exact ⟨⟨h1, h2⟩, h3⟩

lemma triplet_keep_flat3 (sat : Record → Bool) (ts : List (Record × Record × Record)) :
    triplet_keep sat (flat3 ts) = ts.map (select_policy sat) := by
  induction ts with
  | nil => rfl
  | cons t ts ih =>
      obtain ⟨a, b, c⟩ := t
      cases hsa : sat a <;> cases hsb : sat b <;>
        simp [flat3, triplet_keep, select_policy, hsa, hsb, ih]

/-- Shared main lemma: on a frame made of (channel 1, channel 2, channel 3)
triplets with non-decreasing raster numbers, the selector succeeds and keeps
exactly the policy-chosen record of each triplet. -/
lemma select_flat3_ok (ts : List (Record × Record × Record)) (ms mx : Nat) (sv : ℚ)
    (hch : ∀ t ∈ ts, t.1.channel = 1 ∧ t.2.1.channel = 2 ∧ t.2.2.channel = 3)
    (hr : rasters_ok (flat3 ts) = true) :
    select_eaarla_channel (flat3 ts) ms mx sv
      = Except.ok (ts.map (select_policy (fun r => check_saturation mx sv ms r.rx))) := by
  have hf : (flat3 ts).filter (fun r => r.channel != 4) = flat3 ts := flat3_filter_ne4 ts hch
  have hco : channels_ok (flat3 ts) = true := flat3_channels_ok ts hch
  have hlen : (flat3 ts).length % 3 = 0 := by
    rw [flat3_length]
    exact Nat.mul_mod_right 3 ts.length
  simp only [select_eaarla_channel, hf, hco, hr, hlen]
  simp [triplet_keep_flat3]

lemma triplet_keep_sublist (sat : Record → Bool) :
    ∀ l : List Record, (triplet_keep sat l).Sublist l
  | [] => by simp [triplet_keep]
  | [a] => by
      cases hsa : sat a <;> simp [triplet_keep, hsa]
  | [a, b] => by
      cases hsa : sat a <;> cases hsb : sat b <;> simp [triplet_keep, hsa, hsb]
  | a :: b :: c :: rest => by
      have ih := triplet_keep_sublist sat rest
      cases hsa : sat a <;> cases hsb : sat b <;> simp [triplet_keep, hsa, hsb]
      · exact ih.trans ((List.sublist_cons_self c rest).trans (List.sublist_cons_self b (c :: rest)))
      · exact ih.trans ((List.sublist_cons_self c rest).trans (List.sublist_cons_self b (c :: rest)))
      · exact List.Sublist.cons a (List.Sublist.cons₂ b (ih.trans (List.sublist_cons_self c rest)))
      · exact List.Sublist.cons a (List.Sublist.cons b (List.Sublist.cons₂ c ih))

lemma countP_eq_map_sum (p : ℚ → Bool) (l : List ℚ) :
    l.countP p = (l.map (fun v => if p v then 1 else 0)).sum := by
  induction l with
  | nil => rfl
  | cons a l ih =>
      rw [List.countP_cons, List.map_cons, List.sum_cons, ih]
      exact Nat.add_comm _ _

lemma countP_take_eq_card (w : List ℚ) (hw : Nat) (sv : ℚ) :
    (w.take hw).countP (fun v => decide (sv ≤ v)) =
      (Finset.filter (fun i => sv ≤ w.getD i 0) (Finset.range (min hw w.length))).card := by
  rw [countP_eq_map_sum, map_sum_getD (w.take hw) 0, Finset.card_filter]
  have hlen : (w.take hw).length = min hw w.length := by
    simp
  rw [hlen]
  apply Finset.sum_congr rfl
  intro i hi
  have hi' : i < min hw w.length := Finset.mem_range.mp hi
  have hiw : i < w.length := lt_of_lt_of_le hi' (min_le_right _ _)
  have hit : i < (w.take hw).length := by rw [hlen]; exact hi'
  rw [List.getD_eq_getElem _ _ hit, List.getD_eq_getElem _ _ hiw, List.getElem_take]
  simp

/-- C1: for every waveform and limit, `centroid` returns -1 on an empty
waveform; otherwise, with `b i` the background-removed samples of the
(truthy-limit-)truncated waveform `t` (each sample minus the first), it
returns -1 when the sum of `b` is zero, and otherwise the 1-based weighted
sum `∑ b i * (i + 1)` divided by the sum of `b`, minus 1.  In particular
`centroid [] = -1`, `centroid [5,5,5] = -1`, and `centroid [0,10,0] = 1`
exactly. -/
theorem centroid_formula :
    (∀ (wf : List ℚ) (limit : Option Nat),
      centroid wf limit =
        if wf = [] then -1
        else if (∑ i ∈ Finset.range (pyTruncate wf limit).length,
            ((pyTruncate wf limit).getD i 0 - (pyTruncate wf limit).getD 0 0)) = 0 then -1
        else (∑ i ∈ Finset.range (pyTruncate wf limit).length,
              ((pyTruncate wf limit).getD i 0 - (pyTruncate wf limit).getD 0 0) * ((i : ℚ) + 1)) /
            (∑ i ∈ Finset.range (pyTruncate wf limit).length,
              ((pyTruncate wf limit).getD i 0 - (pyTruncate wf limit).getD 0 0)) - 1)
    ∧ centroid [] none = -1
    ∧ centroid [5, 5, 5] none = -1
    ∧ centroid [0, 10, 0] none = 1 :=
  ⟨centroid_eq,
   by norm_num [centroid],
   by norm_num [centroid, pyTruncate, arange1, List.headI, List.range_succ],
   by norm_num [centroid, pyTruncate, arange1, List.headI, List.range_succ]⟩

/-- C2 counterexample: `centroid [0, 10, -9]` (no limit) returns -8, which is
neither -1 nor inside `[0, len - 1) = [0, 2)`, refuting the claimed range
property for arbitrary waveforms. -/
theorem centroid_range_counterexample :
    centroid [0, 10, -9] none = -8 ∧
    ¬(centroid [0, 10, -9] none = -1 ∨
      (0 ≤ centroid [0, 10, -9] none ∧
       centroid [0, 10, -9] none < (([0, 10, -9] : List ℚ).length : ℚ) - 1)) := by
  have h : centroid [0, 10, -9] none = -8 := by
    norm_num [centroid, pyTruncate, arange1, List.headI, List.range_succ]
  refine ⟨h, ?_⟩
  rw [h]
  norm_num

/-- C2 (amended): when every sample of the truncated waveform is at least the
first sample (so the background-removed samples are non-negative), the
centroid is either the sentinel -1 or lies in the closed interval
`[1, m - 1]`, where `m ≤ len wf` is the truncated length; without that
hypothesis the value can fall outside `[0, len wf - 1)` entirely. -/
theorem centroid_bounded_of_monotone_background (wf : List ℚ) (limit : Option Nat)
    (hmono : ∀ x ∈ pyTruncate wf limit, (pyTruncate wf limit).headI ≤ x) :
    centroid wf limit = -1 ∨
      (1 ≤ centroid wf limit ∧
       centroid wf limit ≤ ((pyTruncate wf limit).length : ℚ) - 1 ∧
       (pyTruncate wf limit).length ≤ wf.length) := by
  by_cases hwf : wf = []
  · left; subst hwf; simp [centroid]
  · have ht : pyTruncate wf limit ≠ [] := pyTruncate_ne_nil hwf limit
    have hhead : (pyTruncate wf limit).headI = (pyTruncate wf limit).getD 0 0 :=
      headI_eq_getD _ ht
    rw [centroid_eq, if_neg hwf]
    set n := (pyTruncate wf limit).length with hn
    set S := ∑ i ∈ Finset.range n,
      ((pyTruncate wf limit).getD i 0 - (pyTruncate wf limit).getD 0 0) with hS
    by_cases hS0 : S = 0
    · left; rw [if_pos hS0]
    · right
      rw [if_neg hS0]
      have hb : ∀ i ∈ Finset.range n,
          0 ≤ (pyTruncate wf limit).getD i 0 - (pyTruncate wf limit).getD 0 0 := by
        intro i hi
        have hi' : i < n := Finset.mem_range.mp hi
        have hmem : (pyTruncate wf limit).getD i 0 ∈ pyTruncate wf limit := by
          rw [List.getD_eq_getElem _ _ hi']
          exact List.getElem_mem hi'
        have hx := hmono _ hmem
        rw [hhead] at hx
        linarith
      have hSpos : 0 < S := lt_of_le_of_ne (Finset.sum_nonneg hb) (Ne.symm hS0)
      have hb0 : (pyTruncate wf limit).getD 0 0 - (pyTruncate wf limit).getD 0 0 = 0 :=
        sub_self _
      have h2S : 2 * S ≤ ∑ i ∈ Finset.range n,
          ((pyTruncate wf limit).getD i 0 - (pyTruncate wf limit).getD 0 0) * ((i : ℚ) + 1) := by
        rw [hS, Finset.mul_sum]
        apply Finset.sum_le_sum
        intro i hi
        rcases Nat.eq_zero_or_pos i with h0 | hpos
        · subst h0; rw [hb0]; simp
        · have hbi := hb i hi
          have h2 : (2 : ℚ) ≤ (i : ℚ) + 1 := by
            have h1 : (1 : ℚ) ≤ (i : ℚ) := by exact_mod_cast hpos
            linarith
          rw [mul_comm]
          exact mul_le_mul_of_nonneg_left h2 hbi
      have hnS : (∑ i ∈ Finset.range n,
          ((pyTruncate wf limit).getD i 0 - (pyTruncate wf limit).getD 0 0) * ((i : ℚ) + 1))
            ≤ (n : ℚ) * S := by
        rw [hS, Finset.mul_sum]
        apply Finset.sum_le_sum
        intro i hi
        have hi' : i < n := Finset.mem_range.mp hi
        have hle : (i : ℚ) + 1 ≤ (n : ℚ) := by exact_mod_cast Nat.succ_le_of_lt hi'
        have hbi := hb i hi
        rw [mul_comm ((n : ℚ)) _]
        exact mul_le_mul_of_nonneg_left hle hbi
      refine ⟨?_, ?_, pyTruncate_length_le wf limit⟩
      · have hdiv := (le_div_iff₀ hSpos).mpr h2S
        linarith
      · have hdiv := (div_le_iff₀ hSpos).mpr hnS
        linarith

/-- C2 witness: the amended bound instantiated at the waveform [0, 10, 0]
with no limit, whose samples are all at least its first sample. -/
theorem centroid_bounded_witness :
    centroid [0, 10, 0] none = -1 ∨
      (1 ≤ centroid [0, 10, 0] none ∧
       centroid [0, 10, 0] none ≤ ((pyTruncate [0, 10, 0] none).length : ℚ) - 1 ∧
       (pyTruncate [0, 10, 0] none).length ≤ ([0, 10, 0] : List ℚ).length) :=
  centroid_bounded_of_monotone_background [0, 10, 0] none (by decide)

/-- C9: a limit of 0 is falsy in Python's `if limit:` test, so `centroid wf
(some 0)` performs no truncation at all and agrees with `centroid wf none`. -/
theorem centroid_limit_zero (wf : List ℚ) :
    centroid wf (some 0) = centroid wf none ∧ pyTruncate wf (some 0) = wf :=
  ⟨rfl, rfl⟩

/-- C10: adding a constant to every sample leaves the centroid unchanged,
because the first (shifted) sample is subtracted from every (shifted) sample
before any energy is summed. -/
theorem centroid_shift_invariant (wf : List ℚ) (limit : Option Nat) (c : ℚ) :
    centroid (wf.map (fun v => v + c)) limit = centroid wf limit := by
  rw [centroid_eq, centroid_eq]
  by_cases hwf : wf = []
  · simp [hwf]
  · have hmapne : ¬ wf.map (fun v => v + c) = [] := by
      simp [List.map_eq_nil_iff, hwf]
    rw [if_neg hwf, if_neg hmapne, pyTruncate_map, List.length_map]
    have hterm : ∀ i ∈ Finset.range (pyTruncate wf limit).length,
        ((pyTruncate wf limit).map (fun v => v + c)).getD i 0 -
          ((pyTruncate wf limit).map (fun v => v + c)).getD 0 0
          = (pyTruncate wf limit).getD i 0 - (pyTruncate wf limit).getD 0 0 := by
      intro i hi
      have hi' : i < (pyTruncate wf limit).length := Finset.mem_range.mp hi
      have h0 : 0 < (pyTruncate wf limit).length := Nat.lt_of_le_of_lt (Nat.zero_le i) hi'
      have hi'' : i < ((pyTruncate wf limit).map (fun v => v + c)).length := by
        rw [List.length_map]; exact hi'
      have h0' : 0 < ((pyTruncate wf limit).map (fun v => v + c)).length := by
        rw [List.length_map]; exact h0
      rw [List.getD_eq_getElem _ _ hi'', List.getD_eq_getElem _ _ h0',
        List.getElem_map, List.getElem_map, List.getD_eq_getElem _ _ hi',
        List.getD_eq_getElem _ _ h0]
      ring
    have hS : (∑ i ∈ Finset.range (pyTruncate wf limit).length,
        (((pyTruncate wf limit).map (fun v => v + c)).getD i 0 -
          ((pyTruncate wf limit).map (fun v => v + c)).getD 0 0))
        = ∑ i ∈ Finset.range (pyTruncate wf limit).length,
            ((pyTruncate wf limit).getD i 0 - (pyTruncate wf limit).getD 0 0) :=
      Finset.sum_congr rfl hterm
    have hW : (∑ i ∈ Finset.range (pyTruncate wf limit).length,
        (((pyTruncate wf limit).map (fun v => v + c)).getD i 0 -
          ((pyTruncate wf limit).map (fun v => v + c)).getD 0 0) * ((i : ℚ) + 1))
        = ∑ i ∈ Finset.range (pyTruncate wf limit).length,
            ((pyTruncate wf limit).getD i 0 - (pyTruncate wf limit).getD 0 0) * ((i : ℚ) + 1) :=
      Finset.sum_congr rfl (fun i hi => by rw [hterm i hi])
    rw [hS, hW]

/-- C3: on a frame made of (channel 1, channel 2, channel 3) triplets with
non-decreasing raster numbers, the selector keeps exactly one record per
triplet: channel 1 if its receive waveform is not saturated, else channel 2
if channel 2's is not saturated, else channel 3 unconditionally. -/
theorem select_keeps_policy_choice (ts : List (Record × Record × Record)) (ms mx : Nat)
    (sv : ℚ)
    (hch : ∀ t ∈ ts, t.1.channel = 1 ∧ t.2.1.channel = 2 ∧ t.2.2.channel = 3)
    (hr : rasters_ok (flat3 ts) = true) :
    select_eaarla_channel (flat3 ts) ms mx sv
      = Except.ok (ts.map (select_policy (fun r => check_saturation mx sv ms r.rx))) :=
  select_flat3_ok ts ms mx sv hch hr

/-- C3 witness: a concrete triplet whose channel-1 record is saturated and
whose channel-2 record is not; the selector keeps the policy choice
(channel 2). -/
theorem select_keeps_policy_choice_witness :
    select_eaarla_channel (flat3 [(wrA, wrB, wrC)]) 5 12 250
      = Except.ok ([(wrA, wrB, wrC)].map
          (select_policy (fun r => check_saturation 12 250 5 r.rx))) :=
  select_keeps_policy_choice [(wrA, wrB, wrC)] 5 12 250 (by decide) (by decide)

/-- C4: the selector raises the sort/structure error whenever the positional
spot check on the channel-4-filtered frame detects channel misalignment or a
raster-number decrease; it never errors on a frame correctly grouped into
(1, 2, 3) triplets with non-decreasing raster numbers; and the concrete
frame with per-triplet channel order [1, 3, 2] raises the error. -/
theorem select_sort_error_detection :
    (∀ (frame : List Record) (ms mx : Nat) (sv : ℚ),
      channels_ok (frame.filter (fun r => r.channel != 4)) = false ∨
        rasters_ok (frame.filter (fun r => r.channel != 4)) = false →
      select_eaarla_channel frame ms mx sv = Except.error "frame is not sorted properly")
    ∧ (∀ (ts : List (Record × Record × Record)) (ms mx : Nat) (sv : ℚ),
        (∀ t ∈ ts, t.1.channel = 1 ∧ t.2.1.channel = 2 ∧ t.2.2.channel = 3) →
        rasters_ok (flat3 ts) = true →
        ∃ out, select_eaarla_channel (flat3 ts) ms mx sv = Except.ok out)
    ∧ select_eaarla_channel frame132 5 12 250
        = Except.error "frame is not sorted properly" := by
  have hdet : ∀ (frame : List Record) (ms mx : Nat) (sv : ℚ),
      channels_ok (frame.filter (fun r => r.channel != 4)) = false ∨
        rasters_ok (frame.filter (fun r => r.channel != 4)) = false →
      select_eaarla_channel frame ms mx sv = Except.error "frame is not sorted properly" := by
    intro frame ms mx sv h
    cases hco : channels_ok (frame.filter (fun r => r.channel != 4)) with
    | false => simp [select_eaarla_channel, hco]
    | true =>
        have hro : rasters_ok (frame.filter (fun r => r.channel != 4)) = false := by
          rcases h with h | h
          · rw [hco] at h; exact absurd h (by simp)
          · exact h
        simp [select_eaarla_channel, hco, hro]
  refine ⟨hdet, ?_, hdet frame132 5 12 250 (Or.inl (by decide))⟩
  intro ts ms mx sv hch hr
  exact ⟨_, select_flat3_ok ts ms mx sv hch hr⟩

/-- C4 witness: the detection direction instantiated at a concrete frame in
channel order (1, 2, 3) whose raster numbers decrease. -/
theorem select_sort_error_detection_witness :
    select_eaarla_channel frameRasterBad 5 12 250
      = Except.error "frame is not sorted properly" :=
  select_sort_error_detection.1 frameRasterBad 5 12 250 (Or.inr (by decide))

/-- C8: whenever the selector succeeds, its output is a sublist of the input
frame (each output record is an unmodified input record in the original
relative order) and contains no channel-4 record. -/
theorem select_output_sublist (frame : List Record) (ms mx : Nat) (sv : ℚ)
    (out : List Record)
    (h : select_eaarla_channel frame ms mx sv = Except.ok out) :
    out.Sublist frame ∧ ∀ r ∈ out, r.channel ≠ 4 := by
  rw [select_eaarla_channel] at h
  split_ifs at h with h1 h2 h3
  rw [Except.ok.injEq] at h
  subst h
  constructor
  · exact (triplet_keep_sublist _ _).trans (List.filter_sublist frame)
  · intro r hr
    have hmem : r ∈ frame.filter (fun r => r.channel != 4) :=
      (triplet_keep_sublist _ _).subset hr
    exact bne_iff_ne.mp (List.mem_filter.mp hmem).2

/-- C8 witness: the sublist and no-channel-4 conclusions at a concrete
saturated/unsaturated triplet frame. -/
theorem select_output_sublist_witness :
    ([(wrA, wrB, wrC)].map
        (select_policy (fun r => check_saturation 12 250 5 r.rx))).Sublist
      (flat3 [(wrA, wrB, wrC)])
    ∧ ∀ r ∈ [(wrA, wrB, wrC)].map
        (select_policy (fun r => check_saturation 12 250 5 r.rx)), r.channel ≠ 4 :=
  select_output_sublist (flat3 [(wrA, wrB, wrC)]) 5 12 250 _
    (select_flat3_ok [(wrA, wrB, wrC)] 5 12 250 (by decide) (by decide))

/-- C5: the saturation detector reports saturated exactly when the number of
samples among the first `max_samples` whose value is at least
`saturation_value` reaches `max_saturated`; at the boundary, exactly five
qualifying samples (defaults 12/250/5) is saturated, four is not, and a
waveform shorter than the head window just contributes fewer samples. -/
theorem check_saturation_counts :
    (∀ (max_samples : Nat) (sv : ℚ) (ms : Nat) (w : List ℚ),
      check_saturation max_samples sv ms w = true ↔
        ms ≤ (Finset.filter (fun i => sv ≤ w.getD i 0)
          (Finset.range (min max_samples w.length))).card)
    ∧ check_saturation 12 250 5 wSat5 = true
    ∧ check_saturation 12 250 5 wSat4 = false
    ∧ check_saturation 12 250 5 [300] = false := by
  refine ⟨?_, by decide, by decide, by decide⟩
  intro mxs sv ms w
  simp only [check_saturation, decide_eq_true_eq]
  rw [countP_take_eq_card]

/-- C6: the threshold filter returns exactly the records passing the enabled
checks (conjunctively when both flags are set), as an order-preserving
sublist of the input; with `rx := false` it keeps all records with
`thresh_tx == 0` regardless of `thresh_rx`, and with both flags false it
returns the input unchanged. -/
theorem remove_failed_thresh_filters (frame : List Record) :
    (∀ rx tx : Bool, remove_failed_thresh frame rx tx =
        frame.filter (fun r =>
          (!rx || (r.thresh_rx == 0)) && (!tx || (r.thresh_tx == 0))))
    ∧ (∀ rx tx : Bool, (remove_failed_thresh frame rx tx).Sublist frame)
    ∧ remove_failed_thresh frame false true = frame.filter (fun r => r.thresh_tx == 0)
    ∧ remove_failed_thresh frame false false = frame := by
  have h1 : ∀ rx tx : Bool, remove_failed_thresh frame rx tx =
      frame.filter (fun r =>
        (!rx || (r.thresh_rx == 0)) && (!tx || (r.thresh_tx == 0))) := by
    intro rx tx
    cases rx <;> cases tx <;>
      simp [remove_failed_thresh, List.filter_filter, Bool.and_comm]
  refine ⟨h1, fun rx tx => ?_, by simp [remove_failed_thresh],
    by simp [remove_failed_thresh]⟩
  rw [h1]
  exact List.filter_sublist frame

/-- C7: the position deriver computes `tx_pos` as the transmit centroid with
no limit, the target position as the receive centroid with the given limit
(default 12), obtains the range from the external target-range operation on
(base range, tx_pos, position, channel, ops), and forwards range and prefix
to the external point projector; for arbitrary external operations it does
nothing else. -/
theorem position_deriver_glue {O M P : Type}
    (project_mirror : Record → ℚ → O → M)
    (target_range : ℚ → ℚ → ℚ → Int → O → ℚ)
    (project_point : Record → O → ℚ → String → P)
    (ops : O) (pfx : String) (limit : Option Nat) (r : Record) (tx_pos : ℚ) :
    add_mirror project_mirror ops r
      = (centroid r.tx none, project_mirror r (centroid r.tx none) ops)
    ∧ add_fs target_range project_point ops pfx limit r tx_pos =
        (centroid r.rx limit,
         target_range r.range tx_pos (centroid r.rx limit) r.channel ops,
         project_point r ops
           (target_range r.range tx_pos (centroid r.rx limit) r.channel ops) pfx)
    ∧ fs_default_limit = some 12 ∧ fs_default_pfx = "fs" :=
  ⟨rfl, rfl, rfl, rfl⟩

end EaarlPy
